import Mathlib

/-
Verification of the D-Scope core backend: the incremental log-indexing
pipeline (backend/ci-indexer.ts) and the attestation aggregation service
(backend/attester-server.ts and its newer variant).

The TypeScript sources are shallowly embedded: JS numbers carrying
timestamps are modelled as rationals (for the normalization rule) or
integers, on-chain amounts (BigInt) as naturals, JSON records as
structures, JS objects used as string-keyed maps as association lists or
functions, and the stateful HTTP/file-system plumbing as explicit state
passing.  Wall-clock dependent helpers (Date.now) are taken as explicit
parameters.
-/

namespace DScope

/-- JS `String.prototype.toLowerCase`, used on hex addresses (ASCII), as a
per-character map. -/
def lowerStr (s : String) : String := ⟨s.data.map Char.toLower⟩

/-- JS `String.prototype.toUpperCase`, used on ISO-2 country codes (ASCII),
as a per-character map. -/
def upperStr (s : String) : String := ⟨s.data.map Char.toUpper⟩

/-- Timestamp normalization from ci-indexer.ts `toSec`:
`const n = Number(x || 0); return n > 2e10 ? Math.floor(n / 1000) : Math.floor(n);`.
JS numbers are modelled as rationals; `Math.floor` is `Int.floor`. -/
def toSec (x : ℚ) : ℤ :=
  if (20000000000 : ℚ) < x then ⌊x / 1000⌋ else ⌊x⌋

/-- Lifecycle status from ci-indexer.ts `computeStatus`.  The source coerces
non-positive (or absent) inputs to `null`:
`const s = startSec && startSec > 0 ? startSec : null;` etc., then
`if (f) return "past"; if (e && now >= e) return "past";
 if (s && now < s) return "upcoming"; return "active";`. -/
def coercePos : Option ℤ → Option ℤ
  | none => none
  | some v => if 0 < v then some v else none

def computeStatus (startSec endSec finalizedSec : Option ℤ) (now : ℤ) : String :=
  let s := coercePos startSec
  let e := coercePos endSec
  let f := coercePos finalizedSec
  if f.isSome then "past"
  else if (match e with | some ev => decide (ev ≤ now) | none => false) then "past"
  else if (match s with | some sv => decide (now < sv) | none => false) then "upcoming"
  else "active"

/-
Pass-2 event handlers of ci-indexer.ts, projected onto the store fields the
events mutate: `balances[voter] = (balances[voter] || 0) + 1` on `Voted`,
`prizeFunded = (BigInt(prev || "0") + BigInt(amount)).toString()` on
`PrizeFunded`, and the analogous accumulation on `PrizeSwept`.
(`QuestionAdded` and `Finalized` touch only the append-only ledger and the
overwrite-only `finalizedAt` field, not these counters.)  The JS
`Record<string, number>` / per-survey string accumulators are modelled as
total functions defaulting to 0, matching the `|| 0` / `|| "0"` reads.
-/

inductive ChainEv where
  | voted (survey voter : String)
  | prizeFunded (survey : String) (amount : ℕ)
  | prizeSwept (survey : String) (amount : ℕ)
deriving DecidableEq

structure IdxStore where
  balances : String → ℕ
  prizeFunded : String → ℕ
  prizeSwept : String → ℕ

def emptyStore : IdxStore := ⟨fun _ => 0, fun _ => 0, fun _ => 0⟩

def applyEvent (σ : IdxStore) : ChainEv → IdxStore
  | .voted _ v =>
      { σ with balances := fun x => if x = v then σ.balances v + 1 else σ.balances x }
  | .prizeFunded s a =>
      { σ with prizeFunded := fun x => if x = s then σ.prizeFunded s + a else σ.prizeFunded x }
  | .prizeSwept s a =>
      { σ with prizeSwept := fun x => if x = s then σ.prizeSwept s + a else σ.prizeSwept x }

def applyEvents (σ : IdxStore) (es : List ChainEv) : IdxStore :=
  es.foldl applyEvent σ

/-- Number of `Voted` events by a given voter in a decoded event list. -/
def voteCount (es : List ChainEv) (v : String) : ℕ :=
  es.countP fun e => match e with | .voted _ w => w = v | _ => false

/-- Sum of `PrizeFunded` amounts for a given survey in a decoded event list. -/
def fundedSum (es : List ChainEv) (s : String) : ℕ :=
  (es.map fun e => match e with | .prizeFunded t a => if t = s then a else 0 | _ => 0).sum

/-- Sum of `PrizeSwept` amounts for a given survey in a decoded event list. -/
def sweptSum (es : List ChainEv) (s : String) : ℕ :=
  (es.map fun e => match e with | .prizeSwept t a => if t = s then a else 0 | _ => 0).sum

/-
Checkpointed scan loop of ci-indexer.ts (first variant):
  const fromByState = Number(state.lastBlock || 0) + 1;
  const fromByStart = Math.max(Number(START_BLOCK) || 0, 0);
  const fromByTail  = ONLY_LAST_BLOCKS ? Math.max(latest - ONLY_LAST_BLOCKS + 1, 0) : 0;
  const fromBlock   = Math.max(fromByState, fromByStart, fromByTail);
  const toBlock     = latest;
  if (fromBlock <= toBlock)
    for (let f = fromBlock; f <= toBlock; f += BATCH) {    // BATCH = 1000
      const t = Math.min(f + BATCH - 1, toBlock);
      try { logs = await provider.getLogs({fromBlock: f, toBlock: t, ...}); }
      catch (err) { console.warn(...); continue; }         // batch skipped
      ...process logs...
    }
  ...
  fs.writeFileSync(FILES.STATE, JSON.stringify({..., lastBlock: toBlock, ...}));
The provider is abstracted by `ok` (whether the batch query succeeds) and
`logsFor` (the logs it returns); collected logs stand for the events handed
to the reducer.  The loop is embedded with explicit fuel `toBlock + 1 - f`,
which bounds the number of 1000-block batches.  Math.max(x - N + 1, 0)
matches truncated ℕ subtraction.
-/

def scanLoopAux (ok : ℕ → ℕ → Bool) (logsFor : ℕ → ℕ → List ℕ) :
    ℕ → ℕ → ℕ → List ℕ
  | 0, _, _ => []
  | fuel + 1, f, toBlock =>
      if f ≤ toBlock then
        (if ok f (min (f + 1000 - 1) toBlock) then logsFor f (min (f + 1000 - 1) toBlock)
         else []) ++
          scanLoopAux ok logsFor fuel (f + 1000) toBlock
      else []

def scanLoop (ok : ℕ → ℕ → Bool) (logsFor : ℕ → ℕ → List ℕ)
    (fromBlock toBlock : ℕ) : List ℕ :=
  scanLoopAux ok logsFor (toBlock + 1 - fromBlock) fromBlock toBlock

structure RunOut where
  events : List ℕ
  lastBlock : ℕ
deriving DecidableEq

def runIndexer (stateLast latest startBlock onlyLast : ℕ)
    (ok : ℕ → ℕ → Bool) (logsFor : ℕ → ℕ → List ℕ) : RunOut :=
  let fromByState := stateLast + 1
  let fromByStart := startBlock
  let fromByTail := if onlyLast ≠ 0 then latest + 1 - onlyLast else 0
  let fromBlock := max (max fromByState fromByStart) fromByTail
  let evs := if fromBlock ≤ latest then scanLoop ok logsFor fromBlock latest else []
  ⟨evs, latest⟩

/-
Off-chain treasury funding verification of ci-indexer.ts:
  if (!rec) continue;  if (rec.funded) continue;
  const plannedWei = BigInt(rec.plannedRewardWei || "0");
  if (plannedWei === 0n) continue;
  const tx = await provider.getTransaction(sub.txHash);
  const receipt = await provider.getTransactionReceipt(sub.txHash);
  if (!tx || !receipt || receipt.status !== 1) continue;
  const conf = latest - Number(receipt.blockNumber) + 1;
  if (conf < MIN_CONF) continue;
  const toAddr = (tx.to || "").toLowerCase();
  const fromAddr = (tx.from || "").toLowerCase();
  const value = BigInt(String(tx.value || "0"));
  if (toAddr === TREASURY_SAFE && fromAddr === (rec.creator || "").toLowerCase()
      && value >= plannedWei) { rec.funded = true; rec.fundingTxHash = sub.txHash; ... }
The provider lookups are abstracted as `Option` arguments; `TREASURY_SAFE`
is the already-lowercased configured treasury address.
-/

structure FundRec where
  creator : String
  funded : Bool
  fundingTxHash : Option String
  plannedRewardWei : Option ℕ
deriving DecidableEq

structure TxInfo where
  toAddr : String
  fromAddr : String
  value : ℕ
deriving DecidableEq

structure TxReceipt where
  status : ℕ
  blockNumber : ℕ
deriving DecidableEq

def verifyFunding (treasury : String) (minConf : ℤ) (latest : ℕ)
    (rc : FundRec) (txHash : String)
    (tx : Option TxInfo) (receipt : Option TxReceipt) : FundRec :=
  if rc.funded then rc
  else if rc.plannedRewardWei.getD 0 = 0 then rc
  else
    match tx, receipt with
    | some t, some r =>
        if r.status ≠ 1 then rc
        else if ((latest : ℤ) - (r.blockNumber : ℤ) + 1) < minConf then rc
        else if lowerStr t.toAddr = treasury ∧
            lowerStr t.fromAddr = lowerStr rc.creator ∧
            rc.plannedRewardWei.getD 0 ≤ t.value then
          { rc with funded := true, fundingTxHash := some txHash }
        else rc
    | _, _ => rc

/-
Attestation ingest service (newer attester-server variant, POST
/api/zkpass/submit): pseudonymous Person records merged by nullifier,
per-(region|country) aggregate rows, and the delta/dedup logic.  The
analytics `updatedAt` wall-clock field is omitted (it carries no counter);
`eligible` is `A.total` as in the source (`A.eligible = A.total`).
-/

structure Person where
  nullifier : String
  ageBucket : Option String
  region : Option String
  country : Option String
  kycOk : Bool
deriving DecidableEq

structure Row where
  region : String
  country : String
  count : ℕ
  kycOk : ℕ
  ageBuckets : List (String × ℕ)
deriving DecidableEq

structure Analytics where
  total : ℕ
  eligible : ℕ
  kycOk : ℕ
  rows : List Row
deriving DecidableEq

def emptyAnalytics : Analytics := ⟨0, 0, 0, []⟩

/-- `people.find((p) => p.nullifier === nullifier)`. -/
def findPerson : List Person → String → Option Person
  | [], _ => none
  | p :: rest, h => if p.nullifier = h then some p else findPerson rest h

/-- In the source the found person object is mutated in place; here the
first list entry with the given nullifier is replaced. -/
def updateFirstPerson : List Person → String → Person → List Person
  | [], _, _ => []
  | q :: rest, h, p => if q.nullifier = h then p :: rest else q :: updateFirstPerson rest h p

/-- Row key as built in applyAggDeltas:
`(r.region || "Unknown") + "|" + (r.country || "")`. -/
def rowKeyOf (r : Row) : String :=
  (if r.region = "" then "Unknown" else r.region) ++ "|" ++ r.country

/-- `row.ageBuckets[k] = (row.ageBuckets[k] || 0) + v` on an assoc list. -/
def addAge : List (String × ℕ) → String → ℕ → List (String × ℕ)
  | [], k, v => [(k, v)]
  | kv :: rest, k, v => if kv.1 = k then (k, kv.2 + v) :: rest else kv :: addAge rest k v

/-- `for (const k of Object.keys(ageDelta)) { const v = Number(ageDelta[k] || 0);
if (v) row.ageBuckets[k] = (row.ageBuckets[k] || 0) + v; }`. -/
def applyAgeDeltas (m : List (String × ℕ)) (deltas : List (String × ℕ)) : List (String × ℕ) :=
  deltas.foldl (fun acc kv => if kv.2 ≠ 0 then addAge acc kv.1 kv.2 else acc) m

/-- Mutation of the matched (or freshly pushed) row:
`if (countDelta) row.count += countDelta; if (kycDelta) row.kycOk += kycDelta;`
plus the ageBuckets merge. -/
def bumpRow (r : Row) (countDelta kycDelta : ℕ) (ageDelta : List (String × ℕ)) : Row :=
  { r with
    count := if countDelta ≠ 0 then r.count + countDelta else r.count,
    kycOk := if kycDelta ≠ 0 then r.kycOk + kycDelta else r.kycOk,
    ageBuckets := applyAgeDeltas r.ageBuckets ageDelta }

/-- Replace the first row whose key equals `key` by its bumped version. -/
def updateRowFirst : List Row → String → ℕ → ℕ → List (String × ℕ) → List Row
  | [], _, _, _, _ => []
  | r :: rest, key, cd, kd, ad =>
      if rowKeyOf r = key then bumpRow r cd kd ad :: rest
      else r :: updateRowFirst rest key cd kd ad

def sumCounts (rows : List Row) : ℕ := (rows.map fun r => r.count).sum

def sumKyc (rows : List Row) : ℕ := (rows.map fun r => r.kycOk).sum

/-- `applyAggDeltas(survey, region, country, countDelta, kycDelta, ageDelta)`:
find (or push) the row keyed by `(region || "Unknown") + "|" + (country || "")`,
add the deltas to it, then recompute `total`, `kycOk` and `eligible = total`. -/
def applyAggDeltas (A : Analytics) (region country : String)
    (countDelta kycDelta : ℕ) (ageDelta : List (String × ℕ)) : Analytics :=
  let keyR := if region = "" then "Unknown" else region
  let key := keyR ++ "|" ++ country
  let rows0 := if A.rows.any (fun r => rowKeyOf r = key) then A.rows
               else A.rows ++ [Row.mk keyR country 0 0 []]
  let rows1 := updateRowFirst rows0 key countDelta kycDelta ageDelta
  ⟨sumCounts rows1, sumCounts rows1, sumKyc rows1, rows1⟩

/-- The proof-derived fields of one submission, the output of the schema
dispatch (`derivedAge`, `derivedRegion`, `derivedCountry`, `derivedKyc`). -/
structure Derived where
  dAge : Option String
  dRegion : Option String
  dCountry : Option String
  dKyc : Bool
deriving DecidableEq

/-- `if (derivedAge && person.ageBucket !== derivedAge) { person.ageBucket =
derivedAge; ageDelta[derivedAge] = 1; }`. -/
def mergeAge (p : Person) (dAge : Option String) : Person × List (String × ℕ) :=
  match dAge with
  | some a => if p.ageBucket ≠ some a then ({ p with ageBucket := some a }, [(a, 1)])
              else (p, [])
  | none => (p, [])

/-- `if (derivedRegion && person.region !== derivedRegion) person.region =
derivedRegion;`. -/
def mergeRegion (p : Person) (dRegion : Option String) : Person :=
  match dRegion with
  | some r => if p.region ≠ some r then { p with region := some r } else p
  | none => p

/-- `if (derivedCountry && person.country !== derivedCountry) person.country =
derivedCountry;`. -/
def mergeCountry (p : Person) (dCountry : Option String) : Person :=
  match dCountry with
  | some c => if p.country ≠ some c then { p with country := some c } else p
  | none => p

/-- `if (derivedKyc && !person.kycOk) { person.kycOk = true; kycDelta = 1; }`. -/
def mergeKyc (p : Person) (dKyc : Bool) : Person × ℕ :=
  if dKyc && !p.kycOk then ({ p with kycOk := true }, 1) else (p, 0)

/-- The full in-place merge of one submission into a Person, returning the
updated person, the age delta map and the kyc delta. -/
def mergePerson (p : Person) (d : Derived) : Person × List (String × ℕ) × ℕ :=
  let a := mergeAge p d.dAge
  let p3 := mergeCountry (mergeRegion a.1 d.dRegion) d.dCountry
  let k := mergeKyc p3 d.dKyc
  (k.1, a.2, k.2)

structure SubmitOut where
  people : List Person
  analytics : Analytics
  deduped : Bool
deriving DecidableEq

/-- Body of POST /api/zkpass/submit after validation and schema dispatch,
given the looked-up person (`firstTime` = not found).  Mirrors:
countDelta = firstTime ? 1 : 0; the three field merges; the
`nothingChanged` test (note: it reads `person.region` / `person.country`
AFTER the merge already overwrote them); `people.push` + `savePeople`;
early deduped return (no analytics write) or `applyAggDeltas` with the row
keyed by the person's (possibly just-updated) region/country. -/
def submitWith (people : List Person) (A : Analytics) (h : String) (d : Derived)
    (firstTime : Bool) (person : Person) : SubmitOut :=
  let countDelta : ℕ := if firstTime then 1 else 0
  let m := mergePerson person d
  let person' := m.1
  let ageDelta := m.2.1
  let kycDelta := m.2.2
  let people' := if firstTime then people ++ [person'] else updateFirstPerson people h person'
  let regionUnchanged : Bool :=
    match d.dRegion with
    | none => true
    | some r => decide (person'.region.getD r = r)
  let countryUnchanged : Bool :=
    match d.dCountry with
    | none => true
    | some c => decide (person'.country.getD c = c)
  let nothingChanged : Bool :=
    decide (countDelta = 0) && decide (kycDelta = 0) &&
      decide ((ageDelta.map fun kv => kv.2).sum = 0) &&
      regionUnchanged && countryUnchanged
  if nothingChanged then ⟨people', A, true⟩
  else
    ⟨people',
     applyAggDeltas A (person'.region.getD "Unknown") (person'.country.getD "")
       countDelta kycDelta ageDelta,
     false⟩

def submit (people : List Person) (A : Analytics) (h : String) (d : Derived) : SubmitOut :=
  match findPerson people h with
  | none => submitWith people A h d true (Person.mk h none none none false)
  | some p => submitWith people A h d false p

/-
Schema dispatch of the submit handler.  `dobToAgeBucketKey` depends on the
wall clock (Date.now()), so the birthday-to-bucket mapping is an explicit
parameter `ageOf`; the country branch
  const cc = String(field["data|countryCode"] ?? field["countryCode"] ?? "").toUpperCase();
  if (cc) { derivedCountry = cc; derivedRegion = COUNTRY_REGION[cc] || "Other"; }
and the kyc preset are embedded directly, with the COUNTRY_REGION proxy as
a static lookup over the same code sets.
-/

def eeaCodes : List String :=
  ["AT", "BE", "BG", "HR", "CY", "CZ", "DK", "EE", "FI", "FR", "DE", "GR",
   "HU", "IE", "IT", "LV", "LT", "LU", "MT", "NL", "PL", "PT", "RO", "SK",
   "SI", "ES", "SE", "IS", "LI", "NO"]

def americasCodes : List String :=
  ["US", "CA", "MX", "BR", "AR", "CL", "CO", "PE", "VE", "UY", "EC", "BO",
   "PY", "SR", "GY", "GF", "BZ", "CR", "CU", "DO", "GT", "HN", "JM", "NI",
   "PA", "PR", "SV", "TT"]

def asiaCodes : List String :=
  ["CN", "JP", "KR", "TW", "SG", "HK", "MY", "TH", "VN", "PH", "ID", "IN",
   "PK", "BD", "LK", "NP", "AE", "SA", "QA", "KW", "OM", "BH", "IL", "TR",
   "KZ"]

def africaCodes : List String :=
  ["ZA", "NG", "EG", "KE", "MA", "DZ", "TN", "GH", "ET", "UG", "TZ", "SD",
   "SN", "CI", "CM", "AO", "ZM", "ZW", "MZ"]

def oceaniaCodes : List String := ["AU", "NZ", "FJ", "PG"]

def countryRegion (code : String) : String :=
  let cc := upperStr code
  if eeaCodes.contains cc then "Europe"
  else if americasCodes.contains cc then "Americas"
  else if asiaCodes.contains cc then "Asia"
  else if africaCodes.contains cc then "Africa"
  else if oceaniaCodes.contains cc then "Oceania"
  else "Other"

structure ZkSchemas where
  binanceDob : String
  kucoinCountry : String
  kucoinKyc : String
deriving DecidableEq

def defaultSchemas : ZkSchemas :=
  ⟨"b6fd16b78d9f4eba93bc458c2bb05ae9", "65f20da81c7142459828d672c83daaa2",
   "848605696f0e45f9a4d9b9896e8d4269"⟩

def deriveFields (zk : ZkSchemas) (schemaId birthday countryCode : String)
    (ageOf : String → Option String) : Derived :=
  let dAge := if schemaId = zk.binanceDob then ageOf birthday else none
  let dc :=
    if schemaId = zk.kucoinCountry then
      let cc := upperStr countryCode
      if cc ≠ "" then (some (countryRegion cc), some cc) else (none, none)
    else (none, none)
  ⟨dAge, dc.1, dc.2, decide (schemaId = zk.kucoinKyc)⟩

/-- One submission as it reaches the merge step. -/
structure Submission where
  nullifier : String
  d : Derived
deriving DecidableEq

/-- One request cycle of the service: the handler reads the current people
and analytics state and writes the updated one. -/
def ingestStep (st : SubmitOut) (sub : Submission) : SubmitOut :=
  submit st.people st.analytics sub.nullifier sub.d

/-- A whole run of the ingest service from empty state. -/
def ingestAll (subs : List Submission) : SubmitOut :=
  subs.foldl ingestStep ⟨[], emptyAnalytics, false⟩

/-- Number of distinct strings in a list (distinct pseudonyms ever
ingested). -/
def distinctCount : List String → ℕ
  | [] => 0
  | x :: xs => distinctCount xs + (if x ∈ xs then 0 else 1)

/-- The claim-side matching predicate: a person's current coarsened
region/country key, built exactly like a row key. -/
def personKey (p : Person) : String :=
  (p.region.getD "Unknown") ++ "|" ++ (p.country.getD "")

/-- Number of stored persons whose current region/country match a row's key. -/
def matchCount (people : List Person) (r : Row) : ℕ :=
  people.countP fun p => personKey p = rowKeyOf r

/-- The aggregate-consistency invariant the service maintains: the stored
total equals the sum of the row counts, that sum equals the number of
stored persons, which equals the number of distinct pseudonyms processed,
and a pseudonym has a Person iff it was processed. -/
def IngestInv (st : SubmitOut) (processed : List String) : Prop :=
  st.analytics.total = sumCounts st.analytics.rows ∧
  sumCounts st.analytics.rows = st.people.length ∧
  st.people.length = distinctCount processed ∧
  ∀ n, (∃ p ∈ st.people, p.nullifier = n) ↔ n ∈ processed

end DScope

namespace DScope

theorem applyEvents_cons (σ : IdxStore) (e : ChainEv) (rest : List ChainEv) :
    applyEvents σ (e :: rest) = applyEvents (applyEvent σ e) rest := rfl

/-- Single application of an event list adds the per-key event counts and
amounts on top of the prior store. -/
theorem applyEvents_balances (σ : IdxStore) (es : List ChainEv) (v : String) :
    (applyEvents σ es).balances v = σ.balances v + voteCount es v := by
  induction es generalizing σ with
  | nil => simp [applyEvents, voteCount]
  | cons e rest ih =>
      rw [applyEvents_cons, ih]
      cases e with
      | voted s w =>
          by_cases hv : w = v
          · subst hv
            simp [applyEvent, voteCount, List.countP_cons]
            omega
          · simp [applyEvent, voteCount, List.countP_cons, hv, Ne.symm hv]
      | prizeFunded s a =>
          simp [applyEvent, voteCount, List.countP_cons]
      | prizeSwept s a =>
          simp [applyEvent, voteCount, List.countP_cons]

theorem applyEvents_funded (σ : IdxStore) (es : List ChainEv) (s : String) :
    (applyEvents σ es).prizeFunded s = σ.prizeFunded s + fundedSum es s := by
  induction es generalizing σ with
  | nil => simp [applyEvents, fundedSum]
  | cons e rest ih =>
      rw [applyEvents_cons, ih]
      cases e with
      | voted t w =>
          simp [applyEvent, fundedSum]
      | prizeFunded t a =>
          by_cases hs : t = s
          · subst hs
            simp [applyEvent, fundedSum]
            omega
          · simp [applyEvent, fundedSum, hs, Ne.symm hs]
      | prizeSwept t a =>
          simp [applyEvent, fundedSum]

theorem applyEvents_swept (σ : IdxStore) (es : List ChainEv) (s : String) :
    (applyEvents σ es).prizeSwept s = σ.prizeSwept s + sweptSum es s := by
  induction es generalizing σ with
  | nil => simp [applyEvents, sweptSum]
  | cons e rest ih =>
      rw [applyEvents_cons, ih]
      cases e with
      | voted t w =>
          simp [applyEvent, sweptSum]
      | prizeFunded t a =>
          simp [applyEvent, sweptSum]
      | prizeSwept t a =>
          by_cases hs : t = s
          · subst hs
            simp [applyEvent, sweptSum]
            omega
          · simp [applyEvent, sweptSum, hs, Ne.symm hs]

/-- C1 counterexample: replaying the same decoded event list is not
idempotent — a single `Voted` event applied twice leaves the voter with
balance 2, not 1, so the twice-applied store differs from the once-applied
store. -/
theorem replay_not_idempotent :
    (applyEvents (applyEvents emptyStore [ChainEv.voted "0xs" "0xv"])
        [ChainEv.voted "0xs" "0xv"]).balances "0xv" = 2 ∧
    (applyEvents emptyStore [ChainEv.voted "0xs" "0xv"]).balances "0xv" = 1 ∧
    applyEvents (applyEvents emptyStore [ChainEv.voted "0xs" "0xv"])
        [ChainEv.voted "0xs" "0xv"] ≠
      applyEvents emptyStore [ChainEv.voted "0xs" "0xv"] := by
  refine ⟨by decide, by decide, fun h => ?_⟩
  have h2 := congrArg (fun σ => σ.balances "0xv") h
  simp only at h2
  rw [show (applyEvents (applyEvents emptyStore [ChainEv.voted "0xs" "0xv"])
        [ChainEv.voted "0xs" "0xv"]).balances "0xv" = 2 by decide] at h2
  rw [show (applyEvents emptyStore [ChainEv.voted "0xs" "0xv"]).balances "0xv" = 1
        by decide] at h2
  exact absurd h2 (by decide)

/-- C1 amended: applying the same decoded events a second time adds every
event's contribution again — each voter balance grows by that voter's
`Voted` count and each survey's prizeFunded / prizeSwept accumulator grows
by the survey's summed event amounts (so a replay is a no-op only when the
range contains none of these events). -/
theorem replay_adds_again (σ : IdxStore) (es : List ChainEv) (v s : String) :
    (applyEvents (applyEvents σ es) es).balances v
        = (applyEvents σ es).balances v + voteCount es v ∧
    (applyEvents (applyEvents σ es) es).prizeFunded s
        = (applyEvents σ es).prizeFunded s + fundedSum es s ∧
    (applyEvents (applyEvents σ es) es).prizeSwept s
        = (applyEvents σ es).prizeSwept s + sweptSum es s :=
  ⟨applyEvents_balances _ es v, applyEvents_funded _ es s, applyEvents_swept _ es s⟩

/-- C8: the timestamp normalization maps every value exceeding the 2e10
threshold to its value divided by 1000 (floored), leaves every value at or
below the threshold unchanged (floored), and in particular sends
1700000000000 to 1700000000 and leaves 1700000000 unchanged. -/
theorem toSec_normalizes :
    (∀ x : ℚ, (20000000000 : ℚ) < x → toSec x = ⌊x / 1000⌋) ∧
    (∀ x : ℚ, x ≤ (20000000000 : ℚ) → toSec x = ⌊x⌋) ∧
    toSec 1700000000000 = 1700000000 ∧ toSec 1700000000 = 1700000000 := by
  refine ⟨fun x hx => ?_, fun x hx => ?_, ?_, ?_⟩
  · simp [toSec, hx]
  · simp [toSec, not_lt.mpr hx]
  · norm_num [toSec]
  · norm_num [toSec]

/-- Witness for `toSec_normalizes` at concrete inputs. -/
theorem toSec_normalizes_witness :
    toSec 30000000000 = 30000000 ∧ toSec 42 = 42 := by
  constructor
  · have h := toSec_normalizes.1 30000000000 (by norm_num)
    rw [h]; norm_num
  · have h := toSec_normalizes.2.1 42 (by norm_num)
    rw [h]; norm_num

/-- C7: the lifecycle status is a pure function of
(startTime, endTime, finalizedTime, now): a set (positive) finalized time
forces "past"; otherwise now ≥ endTime gives "past", now < startTime gives
"upcoming", else "active"; including the four concrete example inputs. -/
theorem computeStatus_spec :
    (∀ s e f now : ℤ, 0 < f →
      computeStatus (some s) (some e) (some f) now = "past") ∧
    (∀ s e now : ℤ, 0 < s → 0 < e → e ≤ now →
      computeStatus (some s) (some e) none now = "past") ∧
    (∀ s e now : ℤ, 0 < s → 0 < e → now < e → now < s →
      computeStatus (some s) (some e) none now = "upcoming") ∧
    (∀ s e now : ℤ, 0 < s → 0 < e → now < e → s ≤ now →
      computeStatus (some s) (some e) none now = "active") ∧
    computeStatus (some 100) (some 200) none 150 = "active" ∧
    computeStatus (some 100) (some 200) none 250 = "past" ∧
    computeStatus (some 300) (some 400) none 50 = "upcoming" ∧
    computeStatus (some 100) (some 200) (some 210) 150 = "past" := by
  refine ⟨?_, ?_, ?_, ?_, by decide, by decide, by decide, by decide⟩
  · intro s e f now hf
    simp [computeStatus, coercePos, hf]
  · intro s e now hs he hnow
    simp [computeStatus, coercePos, hs, he, hnow]
  · intro s e now hs he hnow hup
    simp [computeStatus, coercePos, hs, he, not_le.mpr hnow, hup]
  · intro s e now hs he hnow hact
    simp [computeStatus, coercePos, hs, he, not_le.mpr hnow, not_lt.mpr hact]

/-- Witness for `computeStatus_spec` at concrete inputs. -/
theorem computeStatus_spec_witness :
    computeStatus (some 1) (some 2) (some 3) 0 = "past" ∧
    computeStatus (some 10) (some 20) none 25 = "past" ∧
    computeStatus (some 10) (some 20) none 5 = "upcoming" ∧
    computeStatus (some 10) (some 20) none 15 = "active" :=
  ⟨computeStatus_spec.1 1 2 3 0 (by decide),
   computeStatus_spec.2.1 10 20 25 (by decide) (by decide) (by decide),
   computeStatus_spec.2.2.1 10 20 5 (by decide) (by decide) (by decide) (by decide),
   computeStatus_spec.2.2.2.1 10 20 15 (by decide) (by decide) (by decide) (by decide)⟩

/-- C10: the status computation treats non-positive start, end and finalized
values as absent: with all three non-positive the status is "active" for
every now, and with end and finalized non-positive the status is never
"past" regardless of now and start. -/
theorem computeStatus_nonpositive :
    (∀ s e f now : ℤ, s ≤ 0 → e ≤ 0 → f ≤ 0 →
      computeStatus (some s) (some e) (some f) now = "active") ∧
    (∀ (sOpt : Option ℤ) (e f now : ℤ), e ≤ 0 → f ≤ 0 →
      computeStatus sOpt (some e) (some f) now ≠ "past") := by
  constructor
  · intro s e f now hs he hf
    simp [computeStatus, coercePos, not_lt.mpr hs, not_lt.mpr he, not_lt.mpr hf]
  · intro sOpt e f now he hf
    cases sOpt with
    | none =>
        simp [computeStatus, coercePos, not_lt.mpr he, not_lt.mpr hf]
    | some s =>
        by_cases hs : 0 < s
        · by_cases hup : now < s
          · simp [computeStatus, coercePos, not_lt.mpr he, not_lt.mpr hf, hs, hup]
          · simp [computeStatus, coercePos, not_lt.mpr he, not_lt.mpr hf, hs, hup]
        · simp [computeStatus, coercePos, not_lt.mpr he, not_lt.mpr hf, hs]

/-- Witness for `computeStatus_nonpositive` at concrete inputs. -/
theorem computeStatus_nonpositive_witness :
    computeStatus (some 0) (some 0) (some 0) 999 = "active" ∧
    computeStatus (some 50) (some 0) (some (-3)) 999 ≠ "past" :=
  ⟨computeStatus_nonpositive.1 0 0 0 999 (by decide) (by decide) (by decide),
   computeStatus_nonpositive.2 (some 50) 0 (-3) 999 (by decide) (by decide)⟩

theorem scanLoopAux_all_fail (logsFor : ℕ → ℕ → List ℕ)
    (ok : ℕ → ℕ → Bool) (hok : ∀ f t, ok f t = false) :
    ∀ fuel f toBlock, scanLoopAux ok logsFor fuel f toBlock = [] := by
  intro fuel
  induction fuel with
  | zero => intro f toBlock; rfl
  | succ n ih =>
      intro f toBlock
      simp [scanLoopAux, hok, ih]

/-- C5 counterexample: with cursor 0 and chain head 500, the single batch
1–500 fails its log query and is skipped, yet the state written at the end
of the run carries lastBlock = 500 — the cursor advances past the skipped
batch's block range (it would have to stay below 1 to not do so), and the
batch's events are lost. -/
theorem cursor_advances_past_failed_batch :
    (runIndexer 0 500 0 0 (fun _ _ => false) (fun f _ => [f])).events = [] ∧
    (runIndexer 0 500 0 0 (fun _ _ => false) (fun f _ => [f])).lastBlock = 500 ∧
    ¬ (runIndexer 0 500 0 0 (fun _ _ => false) (fun f _ => [f])).lastBlock < 1 := by
  refine ⟨?_, rfl, by decide⟩
  have h := scanLoopAux_all_fail (fun f _ => [f]) (fun _ _ => false)
      (fun _ _ => rfl) 500 1 500
  simpa [runIndexer, scanLoop] using h

/-- C5 amended: the cursor written at the end of a run is always the chain
head observed at the start of the run, even when batch log queries failed
and those batches were skipped; a run whose every batch query fails hands no
events at all to the reducer while still advancing the cursor to the head. -/
theorem cursor_always_head (stateLast latest startBlock onlyLast : ℕ)
    (ok : ℕ → ℕ → Bool) (logsFor : ℕ → ℕ → List ℕ) :
    (runIndexer stateLast latest startBlock onlyLast ok logsFor).lastBlock = latest ∧
    ((∀ f t, ok f t = false) →
      (runIndexer stateLast latest startBlock onlyLast ok logsFor).events = []) := by
  constructor
  · rfl
  · intro hok
    have h := scanLoopAux_all_fail logsFor ok hok
    simp [runIndexer, scanLoop, h]

/-- Witness for `cursor_always_head` at concrete inputs. -/
theorem cursor_always_head_witness :
    (runIndexer 7 2500 0 0 (fun _ _ => false) (fun f _ => [f])).lastBlock = 2500 ∧
    (runIndexer 7 2500 0 0 (fun _ _ => false) (fun f _ => [f])).events = [] :=
  ⟨(cursor_always_head 7 2500 0 0 (fun _ _ => false) (fun f _ => [f])).1,
   (cursor_always_head 7 2500 0 0 (fun _ _ => false) (fun f _ => [f])).2
     (fun _ _ => rfl)⟩

/-- C6 counterexample: a not-yet-funded survey record whose planned reward
is zero is rejected even though every condition named by the claim holds
(receipt succeeded, confirmations 91 ≥ 2, recipient = treasury, sender =
creator, value 5 ≥ planned 0) — so "marks funded iff those five conditions
hold" is false on the code. -/
theorem verifyFunding_zero_planned_rejected :
    ((1 : ℕ) = 1 ∧ (2 : ℤ) ≤ (100 : ℤ) - (10 : ℤ) + 1 ∧
      lowerStr "0xt" = "0xt" ∧
      lowerStr "0xc" = lowerStr "0xc" ∧
      (FundRec.mk "0xc" false none (some 0)).plannedRewardWei.getD 0 ≤ 5) ∧
    (verifyFunding "0xt" 2 100 (FundRec.mk "0xc" false none (some 0)) "0xhash"
        (some (TxInfo.mk "0xt" "0xc" 5)) (some (TxReceipt.mk 1 10))).funded = false := by
  constructor
  · refine ⟨rfl, by decide, ?_, rfl, by decide⟩
    decide
  · decide

/-- C6 amended: for a record that is not already funded, the verification
pass marks it funded iff the planned reward is nonzero AND the receipt
succeeded, the confirmation depth is at least the configured minimum, the
recipient equals the treasury, the sender equals the survey's creator, and
the value is at least the planned reward; an already-funded record is left
untouched, and on acceptance the funding transaction reference is recorded. -/
theorem verifyFunding_accepts_iff (treasury : String) (minConf : ℤ) (latest : ℕ)
    (rc : FundRec) (txHash : String) (t : TxInfo) (r : TxReceipt) :
    (rc.funded = true →
      verifyFunding treasury minConf latest rc txHash (some t) (some r) = rc) ∧
    (rc.funded = false →
      (((verifyFunding treasury minConf latest rc txHash (some t) (some r)).funded = true) ↔
        (rc.plannedRewardWei.getD 0 ≠ 0 ∧ r.status = 1 ∧
          minConf ≤ (latest : ℤ) - (r.blockNumber : ℤ) + 1 ∧
          lowerStr t.toAddr = treasury ∧
          lowerStr t.fromAddr = lowerStr rc.creator ∧
          rc.plannedRewardWei.getD 0 ≤ t.value))) ∧
    (rc.funded = false →
      (verifyFunding treasury minConf latest rc txHash (some t) (some r)).funded = true →
      (verifyFunding treasury minConf latest rc txHash (some t) (some r)).fundingTxHash
        = some txHash) := by
  unfold verifyFunding
  refine ⟨fun hf => by simp [hf], fun hf => ?_, fun hf => ?_⟩
  · rw [hf]
    simp only [Bool.false_eq_true, if_false]
    by_cases hp : rc.plannedRewardWei.getD 0 = 0
    · simp [hp, hf]
    · by_cases hst : r.status = 1
      · by_cases hconf : ((latest : ℤ) - (r.blockNumber : ℤ) + 1) < minConf
        · simp [hp, hst, hconf, hf]
        · by_cases hacc : lowerStr t.toAddr = treasury ∧
              lowerStr t.fromAddr = lowerStr rc.creator ∧
              rc.plannedRewardWei.getD 0 ≤ t.value
          · simp [hp, hst, hconf, hacc, hf]
            omega
          · simp [hp, hst, hconf, hacc, hf]
      · simp [hp, hst, hf]
  · rw [hf]
    simp only [Bool.false_eq_true, if_false]
    by_cases hp : rc.plannedRewardWei.getD 0 = 0
    · simp [hp, hf]
    · by_cases hst : r.status = 1
      · by_cases hconf : ((latest : ℤ) - (r.blockNumber : ℤ) + 1) < minConf
        · simp [hp, hst, hconf, hf]
        · by_cases hacc : lowerStr t.toAddr = treasury ∧
              lowerStr t.fromAddr = lowerStr rc.creator ∧
              rc.plannedRewardWei.getD 0 ≤ t.value
          · simp [hp, hst, hconf, hacc]
          · simp [hp, hst, hconf, hacc, hf]
      · simp [hp, hst, hf]

/-- Witness for `verifyFunding_accepts_iff` at concrete inputs: a record
with nonzero planned reward and a fully conforming transaction is accepted
and the transaction hash recorded. -/
theorem verifyFunding_accepts_iff_witness :
    (verifyFunding "0xt" 2 100 (FundRec.mk "0xc" false none (some 4)) "0xhash"
        (some (TxInfo.mk "0xt" "0xc" 5)) (some (TxReceipt.mk 1 10))).funded = true ∧
    (verifyFunding "0xt" 2 100 (FundRec.mk "0xc" false none (some 4)) "0xhash"
        (some (TxInfo.mk "0xt" "0xc" 5)) (some (TxReceipt.mk 1 10))).fundingTxHash
      = some "0xhash" := by
  have h := verifyFunding_accepts_iff "0xt" 2 100 (FundRec.mk "0xc" false none (some 4))
      "0xhash" (TxInfo.mk "0xt" "0xc" 5) (TxReceipt.mk 1 10)
  have hfunded : (verifyFunding "0xt" 2 100 (FundRec.mk "0xc" false none (some 4)) "0xhash"
      (some (TxInfo.mk "0xt" "0xc" 5)) (some (TxReceipt.mk 1 10))).funded = true := by
    exact (h.2.1 rfl).mpr ⟨by decide, rfl, by decide, by decide, rfl, by decide⟩
  exact ⟨hfunded, h.2.2 rfl hfunded⟩

/-- C9: a survey record whose stored planned reward is zero or absent is
never marked funded and never gets a funding transaction reference — the
verification pass leaves it completely unchanged, whatever the submitted
transaction looks like. -/
theorem verifyFunding_zero_planned_noop (treasury : String) (minConf : ℤ)
    (latest : ℕ) (rc : FundRec) (txHash : String)
    (tx : Option TxInfo) (receipt : Option TxReceipt)
    (hzero : rc.plannedRewardWei.getD 0 = 0) :
    verifyFunding treasury minConf latest rc txHash tx receipt = rc := by
  unfold verifyFunding
  by_cases hf : rc.funded
  · simp [hf]
  · simp [hf, hzero]

/-- Witness for `verifyFunding_zero_planned_noop`: the planned reward is
absent while the transaction satisfies recipient, sender, value and
confirmation conditions, and the record is still unchanged. -/
theorem verifyFunding_zero_planned_noop_witness :
    (FundRec.mk "0xc" false none none).plannedRewardWei.getD 0 = 0 ∧
    verifyFunding "0xt" 2 100 (FundRec.mk "0xc" false none none) "0xhash"
        (some (TxInfo.mk "0xt" "0xc" 5)) (some (TxReceipt.mk 1 10))
      = FundRec.mk "0xc" false none none :=
  ⟨by decide,
   verifyFunding_zero_planned_noop "0xt" 2 100 (FundRec.mk "0xc" false none none)
     "0xhash" (some (TxInfo.mk "0xt" "0xc" 5)) (some (TxReceipt.mk 1 10)) (by decide)⟩

theorem mergeAge_fst (p : Person) (da : Option String) :
    (mergeAge p da).1 =
      { p with ageBucket := match da with | some a => some a | none => p.ageBucket } := by
  obtain ⟨n, ab, rg, ct, kc⟩ := p
  cases da with
  | none => rfl
  | some a =>
      by_cases hb : ab = some a
      · simp [mergeAge, hb]
      · simp [mergeAge, hb]

theorem mergeRegion_eq (p : Person) (dr : Option String) :
    mergeRegion p dr =
      { p with region := match dr with | some r => some r | none => p.region } := by
  obtain ⟨n, ab, rg, ct, kc⟩ := p
  cases dr with
  | none => rfl
  | some r =>
      by_cases hb : rg = some r
      · simp [mergeRegion, hb]
      · simp [mergeRegion, hb]

theorem mergeCountry_eq (p : Person) (dc : Option String) :
    mergeCountry p dc =
      { p with country := match dc with | some c => some c | none => p.country } := by
  obtain ⟨n, ab, rg, ct, kc⟩ := p
  cases dc with
  | none => rfl
  | some c =>
      by_cases hb : ct = some c
      · simp [mergeCountry, hb]
      · simp [mergeCountry, hb]

theorem mergeKyc_fst (p : Person) (dk : Bool) :
    (mergeKyc p dk).1 = { p with kycOk := dk || p.kycOk } := by
  obtain ⟨n, ab, rg, ct, kc⟩ := p
  cases dk <;> cases kc <;> simp [mergeKyc]

theorem mergePerson_fst (p : Person) (d : Derived) :
    (mergePerson p d).1 =
      { nullifier := p.nullifier,
        ageBucket := match d.dAge with | some a => some a | none => p.ageBucket,
        region := match d.dRegion with | some r => some r | none => p.region,
        country := match d.dCountry with | some c => some c | none => p.country,
        kycOk := d.dKyc || p.kycOk } := by
  unfold mergePerson
  rw [mergeKyc_fst, mergeCountry_eq, mergeRegion_eq, mergeAge_fst]

theorem mergePerson_absorb (p : Person) (d : Derived) :
    mergePerson (mergePerson p d).1 d = ((mergePerson p d).1, ([], 0)) := by
  obtain ⟨da, dr, dc, dk⟩ := d
  rw [mergePerson_fst p ⟨da, dr, dc, dk⟩]
  cases da <;> cases dr <;> cases dc <;> cases dk <;>
    simp [mergePerson, mergeAge, mergeRegion, mergeCountry, mergeKyc]

theorem mergePerson_nullifier (p : Person) (d : Derived) :
    (mergePerson p d).1.nullifier = p.nullifier := by
  rw [mergePerson_fst]

theorem findPerson_append_none (l l2 : List Person) (h : String)
    (hnone : findPerson l h = none) :
    findPerson (l ++ l2) h = findPerson l2 h := by
  induction l with
  | nil => rfl
  | cons q rest ih =>
      by_cases hq : q.nullifier = h
      · rw [findPerson, if_pos hq] at hnone
        exact absurd hnone (by simp)
      · rw [findPerson, if_neg hq] at hnone
        show findPerson (q :: (rest ++ l2)) h = findPerson l2 h
        rw [findPerson, if_neg hq]
        exact ih hnone

theorem findPerson_some_nullifier (l : List Person) (h : String) (p : Person)
    (hsome : findPerson l h = some p) : p.nullifier = h := by
  induction l with
  | nil => simp [findPerson] at hsome
  | cons q rest ih =>
      by_cases hq : q.nullifier = h
      · simp only [findPerson, hq, if_true, Option.some.injEq] at hsome
        rw [← hsome]; exact hq
      · simp only [findPerson, hq, if_false] at hsome
        exact ih hsome

theorem findPerson_none_iff (l : List Person) (h : String) :
    findPerson l h = none ↔ ∀ p ∈ l, p.nullifier ≠ h := by
  induction l with
  | nil => simp [findPerson]
  | cons q rest ih =>
      by_cases hq : q.nullifier = h
      · simp [findPerson, hq]
      · simp [findPerson, hq, ih]

theorem updateFirstPerson_self (l : List Person) (h : String) (p : Person)
    (hsome : findPerson l h = some p) : updateFirstPerson l h p = l := by
  induction l with
  | nil => simp [findPerson] at hsome
  | cons q rest ih =>
      by_cases hq : q.nullifier = h
      · rw [findPerson, if_pos hq] at hsome
        have hqp : q = p := by
          cases hsome; rfl
        subst hqp
        rw [updateFirstPerson, if_pos hq]
      · rw [findPerson, if_neg hq] at hsome
        rw [updateFirstPerson, if_neg hq, ih hsome]

theorem updateFirstPerson_map_nullifier (l : List Person) (h : String) (p : Person)
    (hp : p.nullifier = h) :
    (updateFirstPerson l h p).map (fun q => q.nullifier)
      = l.map fun q => q.nullifier := by
  induction l with
  | nil => rfl
  | cons q rest ih =>
      by_cases hq : q.nullifier = h
      · simp [updateFirstPerson, hq, hp]
      · simp [updateFirstPerson, hq, ih]

theorem updateFirstPerson_length (l : List Person) (h : String) (p : Person) :
    (updateFirstPerson l h p).length = l.length := by
  induction l with
  | nil => rfl
  | cons q rest ih =>
      by_cases hq : q.nullifier = h
      · simp [updateFirstPerson, hq]
      · simp [updateFirstPerson, hq, ih]

theorem bumpRow_count (r : Row) (cd kd : ℕ) (ad : List (String × ℕ)) :
    (bumpRow r cd kd ad).count = r.count + cd := by
  cases cd with
  | zero => simp [bumpRow]
  | succ n => simp [bumpRow]

theorem sumCounts_append (a b : List Row) :
    sumCounts (a ++ b) = sumCounts a + sumCounts b := by
  simp [sumCounts]

theorem updateRowFirst_sum (rows : List Row) (key : String) (cd kd : ℕ)
    (ad : List (String × ℕ)) (hmem : ∃ r ∈ rows, rowKeyOf r = key) :
    sumCounts (updateRowFirst rows key cd kd ad) = sumCounts rows + cd := by
  induction rows with
  | nil => simp at hmem
  | cons r rest ih =>
      by_cases hr : rowKeyOf r = key
      · simp [updateRowFirst, hr, sumCounts, bumpRow_count]
        omega
      · obtain ⟨r0, hr0mem, hr0⟩ := hmem
        rcases List.mem_cons.mp hr0mem with hhead | htail
        · exact absurd (hhead ▸ hr0) hr
        · rw [updateRowFirst, if_neg hr]
          have hrec := ih ⟨r0, htail, hr0⟩
          simp only [sumCounts, List.map_cons, List.sum_cons] at hrec ⊢
          omega

theorem updateRowFirst_append_no_match (rows l2 : List Row) (key : String)
    (cd kd : ℕ) (ad : List (String × ℕ))
    (hno : ∀ r ∈ rows, rowKeyOf r ≠ key) :
    updateRowFirst (rows ++ l2) key cd kd ad = rows ++ updateRowFirst l2 key cd kd ad := by
  induction rows with
  | nil => rfl
  | cons r rest ih =>
      have hr : rowKeyOf r ≠ key := hno r (by simp)
      have hrest : ∀ x ∈ rest, rowKeyOf x ≠ key := fun x hx => hno x (by simp [hx])
      calc updateRowFirst ((r :: rest) ++ l2) key cd kd ad
          = r :: updateRowFirst (rest ++ l2) key cd kd ad := by
            rw [List.cons_append, updateRowFirst, if_neg hr]
        _ = r :: (rest ++ updateRowFirst l2 key cd kd ad) := by rw [ih hrest]
        _ = (r :: rest) ++ updateRowFirst l2 key cd kd ad := rfl

theorem keyR_ne_empty (region : String) :
    (if region = "" then "Unknown" else region) ≠ "" := by
  by_cases hr : region = "" <;> simp [hr]

theorem applyAggDeltas_sum_aux (rows : List Row) (keyR country : String)
    (hkR : keyR ≠ "") (cd kd : ℕ) (ad : List (String × ℕ)) :
    sumCounts (updateRowFirst
        (if rows.any (fun r => rowKeyOf r = keyR ++ "|" ++ country) then rows
         else rows ++ [Row.mk keyR country 0 0 []])
        (keyR ++ "|" ++ country) cd kd ad)
      = sumCounts rows + cd := by
  split
  case isTrue hany =>
      rw [List.any_eq_true] at hany
      obtain ⟨r0, hmem, hkey⟩ := hany
      rw [decide_eq_true_iff] at hkey
      exact updateRowFirst_sum rows _ cd kd ad ⟨r0, hmem, hkey⟩
  case isFalse hany =>
      rw [List.any_eq_true] at hany
      push_neg at hany
      have hno : ∀ r ∈ rows, rowKeyOf r ≠ keyR ++ "|" ++ country := by
        intro r hr
        have hd := hany r hr
        simpa using hd
      rw [updateRowFirst_append_no_match rows _ _ cd kd ad hno]
      have hfresh : rowKeyOf (Row.mk keyR country 0 0 [])
          = keyR ++ "|" ++ country := by
        unfold rowKeyOf
        simp [hkR]
      rw [updateRowFirst, if_pos hfresh, sumCounts_append]
      simp [sumCounts, bumpRow_count]

theorem applyAggDeltas_sum (A : Analytics) (region country : String)
    (cd kd : ℕ) (ad : List (String × ℕ)) :
    sumCounts (applyAggDeltas A region country cd kd ad).rows
      = sumCounts A.rows + cd := by
  unfold applyAggDeltas
  dsimp only
  exact applyAggDeltas_sum_aux A.rows _ country (keyR_ne_empty region) cd kd ad


theorem applyAggDeltas_total (A : Analytics) (region country : String)
    (cd kd : ℕ) (ad : List (String × ℕ)) :
    (applyAggDeltas A region country cd kd ad).total
      = sumCounts (applyAggDeltas A region country cd kd ad).rows := rfl

/-- A submission with an unseen nullifier creates the person and applies a
count delta of 1 to the aggregates. -/
theorem submit_fresh (people : List Person) (A : Analytics) (h : String)
    (d : Derived) (hf : findPerson people h = none) :
    submit people A h d =
      ⟨people ++ [(mergePerson (Person.mk h none none none false) d).1],
       applyAggDeltas A
         ((mergePerson (Person.mk h none none none false) d).1.region.getD "Unknown")
         ((mergePerson (Person.mk h none none none false) d).1.country.getD "")
         1 (mergePerson (Person.mk h none none none false) d).2.2
         (mergePerson (Person.mk h none none none false) d).2.1,
       false⟩ := by
  unfold submit
  rw [hf]
  rfl

/-- A found person fully absorbing the submission makes the handler take the
deduped early return: people re-saved unchanged, analytics untouched. -/
theorem submitWith_noop (people : List Person) (A : Analytics) (h : String)
    (d : Derived) (q : Person)
    (habs : mergePerson q d = (q, ([], 0)))
    (hreg : ∀ r, d.dRegion = some r → q.region = some r)
    (hcty : ∀ c, d.dCountry = some c → q.country = some c) :
    submitWith people A h d false q = ⟨updateFirstPerson people h q, A, true⟩ := by
  unfold submitWith
  rw [habs]
  have hru : (match d.dRegion with
      | none => true
      | some r => decide (q.region.getD r = r)) = true := by
    cases hdr : d.dRegion with
    | none => rfl
    | some r => simp [hreg r hdr]
  have hcu : (match d.dCountry with
      | none => true
      | some c => decide (q.country.getD c = c)) = true := by
    cases hdc : d.dCountry with
    | none => rfl
    | some c => simp [hcty c hdc]
  simp [hru, hcu]

/-- C2: submitting a second time with the same derived fields and the same
pseudonym leaves the person store and the analytics unchanged, the second
response is marked deduplicated, and across the two calls the aggregate
count is incremented exactly once. -/
theorem submit_resubmit_dedup (people : List Person) (A : Analytics)
    (h : String) (d : Derived) (hfresh : findPerson people h = none) :
    (submit (submit people A h d).people (submit people A h d).analytics h d).people
      = (submit people A h d).people ∧
    (submit (submit people A h d).people (submit people A h d).analytics h d).analytics
      = (submit people A h d).analytics ∧
    (submit (submit people A h d).people (submit people A h d).analytics h d).deduped
      = true ∧
    (submit people A h d).deduped = false ∧
    sumCounts (submit people A h d).analytics.rows = sumCounts A.rows + 1 := by
  have e1 := submit_fresh people A h d hfresh
  have hqnull : (mergePerson (Person.mk h none none none false) d).1.nullifier = h :=
    mergePerson_nullifier _ _
  have hfind2 : findPerson
      (people ++ [(mergePerson (Person.mk h none none none false) d).1]) h
      = some (mergePerson (Person.mk h none none none false) d).1 := by
    rw [findPerson_append_none people _ h hfresh, findPerson, if_pos hqnull]
  have habs := mergePerson_absorb (Person.mk h none none none false) d
  have hreg : ∀ r, d.dRegion = some r →
      (mergePerson (Person.mk h none none none false) d).1.region = some r := by
    intro r hdr
    rw [mergePerson_fst]
    simp [hdr]
  have hcty : ∀ c, d.dCountry = some c →
      (mergePerson (Person.mk h none none none false) d).1.country = some c := by
    intro c hdc
    rw [mergePerson_fst]
    simp [hdc]
  have e2 : ∀ B : Analytics,
      submit (people ++ [(mergePerson (Person.mk h none none none false) d).1]) B h d
        = ⟨people ++ [(mergePerson (Person.mk h none none none false) d).1], B, true⟩ := by
    intro B
    unfold submit
    rw [hfind2]
    dsimp only
    rw [submitWith_noop _ _ _ _ _ habs hreg hcty,
      updateFirstPerson_self _ _ _ hfind2]
  rw [e1]
  refine ⟨?_, ?_, ?_, rfl, ?_⟩
  · rw [e2]
  · rw [e2]
  · rw [e2]
  · exact applyAggDeltas_sum A _ _ 1 _ _

/-- Witness for `submit_resubmit_dedup` at a concrete submission. -/
theorem submit_resubmit_dedup_witness :
    (submit (submit [] emptyAnalytics "0xaa" (Derived.mk (some "18-25") (some "Europe") (some "DE") true)).people
        (submit [] emptyAnalytics "0xaa" (Derived.mk (some "18-25") (some "Europe") (some "DE") true)).analytics
        "0xaa" (Derived.mk (some "18-25") (some "Europe") (some "DE") true)).analytics
      = (submit [] emptyAnalytics "0xaa" (Derived.mk (some "18-25") (some "Europe") (some "DE") true)).analytics ∧
    (submit (submit [] emptyAnalytics "0xaa" (Derived.mk (some "18-25") (some "Europe") (some "DE") true)).people
        (submit [] emptyAnalytics "0xaa" (Derived.mk (some "18-25") (some "Europe") (some "DE") true)).analytics
        "0xaa" (Derived.mk (some "18-25") (some "Europe") (some "DE") true)).deduped = true ∧
    sumCounts (submit [] emptyAnalytics "0xaa" (Derived.mk (some "18-25") (some "Europe") (some "DE") true)).analytics.rows
      = sumCounts emptyAnalytics.rows + 1 := by
  have hc := submit_resubmit_dedup [] emptyAnalytics "0xaa"
      (Derived.mk (some "18-25") (some "Europe") (some "DE") true) rfl
  exact ⟨hc.2.1, hc.2.2.1, hc.2.2.2.2⟩

theorem distinctCount_append (l : List String) (h : String) :
    distinctCount (l ++ [h]) = distinctCount l + (if h ∈ l then 0 else 1) := by
  induction l with
  | nil => simp [distinctCount]
  | cons x xs ih =>
      by_cases hxh : x = h
      · subst hxh
        by_cases hx : x ∈ xs
        · simp [distinctCount, ih, hx, List.mem_append]
        · simp [distinctCount, ih, hx, List.mem_append]
      · by_cases hx : x ∈ xs <;> by_cases hh : h ∈ xs <;>
          simp [distinctCount, ih, hx, hh, hxh, Ne.symm hxh, List.mem_append]

theorem findPerson_some_mem (l : List Person) (h : String) (p : Person)
    (hsome : findPerson l h = some p) : p ∈ l := by
  induction l with
  | nil => simp [findPerson] at hsome
  | cons q rest ih =>
      by_cases hq : q.nullifier = h
      · rw [findPerson, if_pos hq] at hsome
        cases hsome
        exact List.mem_cons_self _ _
      · rw [findPerson, if_neg hq] at hsome
        exact List.mem_cons_of_mem q (ih hsome)

theorem submitWith_false_people (people : List Person) (A : Analytics)
    (h : String) (d : Derived) (p : Person) :
    (submitWith people A h d false p).people
      = updateFirstPerson people h (mergePerson p d).1 := by
  unfold submitWith
  simp only [Bool.false_eq_true, if_false]
  split <;> rfl

theorem submitWith_false_analytics (people : List Person) (A : Analytics)
    (h : String) (d : Derived) (p : Person) :
    (submitWith people A h d false p).analytics = A ∨
    ∃ kd ad, (submitWith people A h d false p).analytics
      = applyAggDeltas A ((mergePerson p d).1.region.getD "Unknown")
          ((mergePerson p d).1.country.getD "") 0 kd ad := by
  unfold submitWith
  simp only [Bool.false_eq_true, if_false]
  split
  · exact Or.inl rfl
  · exact Or.inr ⟨_, _, rfl⟩

theorem submit_inv_step (st : SubmitOut) (processed : List String)
    (sub : Submission) (hinv : IngestInv st processed) :
    IngestInv (ingestStep st sub) (processed ++ [sub.nullifier]) := by
  obtain ⟨h1, h2, h3, h4⟩ := hinv
  cases hfind : findPerson st.people sub.nullifier with
  | none =>
      have hnomem : sub.nullifier ∉ processed := by
        intro hmem
        obtain ⟨p, hp, hpn⟩ := (h4 sub.nullifier).mpr hmem
        rw [findPerson_none_iff] at hfind
        exact hfind p hp hpn
      have e : ingestStep st sub =
          ⟨st.people ++ [(mergePerson (Person.mk sub.nullifier none none none false) sub.d).1],
           applyAggDeltas st.analytics
             ((mergePerson (Person.mk sub.nullifier none none none false) sub.d).1.region.getD "Unknown")
             ((mergePerson (Person.mk sub.nullifier none none none false) sub.d).1.country.getD "")
             1 (mergePerson (Person.mk sub.nullifier none none none false) sub.d).2.2
             (mergePerson (Person.mk sub.nullifier none none none false) sub.d).2.1,
           false⟩ :=
        submit_fresh st.people st.analytics sub.nullifier sub.d hfind
      have hqnull : (mergePerson (Person.mk sub.nullifier none none none false) sub.d).1.nullifier
          = sub.nullifier := mergePerson_nullifier _ _
      refine ⟨?_, ?_, ?_, ?_⟩
      · rw [e]
        exact applyAggDeltas_total _ _ _ _ _ _
      · rw [e]
        dsimp only
        rw [applyAggDeltas_sum, h2]
        simp
      · rw [e]
        dsimp only
        rw [distinctCount_append, if_neg hnomem]
        simp [h3]
      · intro n
        rw [e]
        dsimp only
        constructor
        · rintro ⟨p, hp, hpn⟩
          rcases List.mem_append.mp hp with hl | hr
          · exact List.mem_append.mpr (Or.inl ((h4 n).mp ⟨p, hl, hpn⟩))
          · have hpq : p = (mergePerson (Person.mk sub.nullifier none none none false) sub.d).1 := by
              simpa using hr
            subst hpq
            rw [hqnull] at hpn
            simp [hpn]
        · intro hmem
          rcases List.mem_append.mp hmem with hl | hr
          · obtain ⟨p, hp, hpn⟩ := (h4 n).mpr hl
            exact ⟨p, List.mem_append.mpr (Or.inl hp), hpn⟩
          · have hn : n = sub.nullifier := by simpa using hr
            subst hn
            exact ⟨_, List.mem_append.mpr (Or.inr (by simp)), hqnull⟩
  | some p =>
      have hpn : p.nullifier = sub.nullifier := findPerson_some_nullifier _ _ _ hfind
      have hpmem : p ∈ st.people := findPerson_some_mem _ _ _ hfind
      have hinproc : sub.nullifier ∈ processed :=
        (h4 sub.nullifier).mp ⟨p, hpmem, hpn⟩
      have hqnull : (mergePerson p sub.d).1.nullifier = sub.nullifier := by
        rw [mergePerson_nullifier]
        exact hpn
      have e : ingestStep st sub
          = submitWith st.people st.analytics sub.nullifier sub.d false p := by
        unfold ingestStep submit
        rw [hfind]
      have hppl : (ingestStep st sub).people
          = updateFirstPerson st.people sub.nullifier (mergePerson p sub.d).1 := by
        rw [e, submitWith_false_people]
      have hmap : ((ingestStep st sub).people.map fun q => q.nullifier)
          = st.people.map fun q => q.nullifier := by
        rw [hppl]
        exact updateFirstPerson_map_nullifier _ _ _ hqnull
      have hlen : (ingestStep st sub).people.length = st.people.length := by
        rw [hppl]
        exact updateFirstPerson_length _ _ _
      have hmem : ∀ n, (∃ q ∈ (ingestStep st sub).people, q.nullifier = n)
          ↔ (∃ q ∈ st.people, q.nullifier = n) := by
        intro n
        constructor
        · rintro ⟨q, hq, hqn⟩
          have : n ∈ st.people.map fun x => x.nullifier := by
            rw [← hmap]
            exact List.mem_map.mpr ⟨q, hq, hqn⟩
          obtain ⟨x, hx, hxn⟩ := List.mem_map.mp this
          exact ⟨x, hx, hxn⟩
        · rintro ⟨q, hq, hqn⟩
          have : n ∈ (ingestStep st sub).people.map fun x => x.nullifier := by
            rw [hmap]
            exact List.mem_map.mpr ⟨q, hq, hqn⟩
          obtain ⟨x, hx, hxn⟩ := List.mem_map.mp this
          exact ⟨x, hx, hxn⟩
      have hana := submitWith_false_analytics st.people st.analytics sub.nullifier sub.d p
      refine ⟨?_, ?_, ?_, ?_⟩
      · rcases hana with hA | ⟨kd, ad, hA⟩
        · rw [e, hA]
          exact h1
        · rw [e, hA]
          exact applyAggDeltas_total _ _ _ _ _ _
      · rcases hana with hA | ⟨kd, ad, hA⟩
        · rw [e, hA, ← e, hlen]
          exact h2
        · rw [e, hA]
          rw [applyAggDeltas_sum]
          rw [← e, hlen]
          simpa using h2
      · rw [hlen, distinctCount_append, if_pos hinproc, h3]
        omega
      · intro n
        rw [hmem n, h4 n]
        simp [List.mem_append]
        intro hn
        subst hn
        exact hinproc

theorem ingest_inv (subs : List Submission) :
    ∀ st processed, IngestInv st processed →
      IngestInv (subs.foldl ingestStep st)
        (processed ++ subs.map fun sb => sb.nullifier) := by
  induction subs with
  | nil =>
      intro st processed hp
      simpa using hp
  | cons sub rest ih =>
      intro st processed hp
      have hstep := submit_inv_step st processed sub hp
      have hrec := ih (ingestStep st sub) (processed ++ [sub.nullifier]) hstep
      simpa [List.append_assoc] using hrec

/-- C3 amended: after every sequence of submit operations from the empty
state, the stored total equals the sum of the row counts and that sum
equals the number of distinct pseudonyms ever ingested.  (The per-row
count/matching-pseudonym equality of the original claim fails; see the
counterexample.) -/
theorem ingest_total_distinct (subs : List Submission) :
    (ingestAll subs).analytics.total = sumCounts (ingestAll subs).analytics.rows ∧
    sumCounts (ingestAll subs).analytics.rows
      = distinctCount (subs.map fun sb => sb.nullifier) := by
  have hinit : IngestInv ⟨[], emptyAnalytics, false⟩ [] := by
    refine ⟨rfl, rfl, rfl, ?_⟩
    intro n
    simp
  have h := ingest_inv subs ⟨[], emptyAnalytics, false⟩ [] hinit
  rw [List.nil_append] at h
  obtain ⟨h1, h2, h3, h4⟩ := h
  exact ⟨h1, h2.trans h3⟩

/-- C3 counterexample: ingest a fresh pseudonym with no derived fields (it
lands in the ("Unknown","") row), then resubmit it with a derived
region/country (Europe/DE).  The second call is treated as deduplicated, so
the aggregate row never moves: the sole row keeps count 1 while zero stored
persons still match its key — the per-row invariant of the claim is false. -/
theorem aggRow_count_mismatch :
    ((ingestAll
        [Submission.mk "0xaa" (deriveFields defaultSchemas "zzz" "" "" fun _ => none),
         Submission.mk "0xaa"
           (deriveFields defaultSchemas defaultSchemas.kucoinCountry "" "DE"
             fun _ => none)]).analytics.rows.map fun r => r.count) = [1] ∧
    ((ingestAll
        [Submission.mk "0xaa" (deriveFields defaultSchemas "zzz" "" "" fun _ => none),
         Submission.mk "0xaa"
           (deriveFields defaultSchemas defaultSchemas.kucoinCountry "" "DE"
             fun _ => none)]).analytics.rows.map fun r =>
        matchCount (ingestAll
          [Submission.mk "0xaa" (deriveFields defaultSchemas "zzz" "" "" fun _ => none),
           Submission.mk "0xaa"
             (deriveFields defaultSchemas defaultSchemas.kucoinCountry "" "DE"
               fun _ => none)]).people r) = [0] ∧
    ¬ (∀ r ∈ (ingestAll
        [Submission.mk "0xaa" (deriveFields defaultSchemas "zzz" "" "" fun _ => none),
         Submission.mk "0xaa"
           (deriveFields defaultSchemas defaultSchemas.kucoinCountry "" "DE"
             fun _ => none)]).analytics.rows,
        r.count = matchCount (ingestAll
          [Submission.mk "0xaa" (deriveFields defaultSchemas "zzz" "" "" fun _ => none),
           Submission.mk "0xaa"
             (deriveFields defaultSchemas defaultSchemas.kucoinCountry "" "DE"
               fun _ => none)]).people r) := by
  refine ⟨by decide, by decide, by decide⟩

/-- C4 (failing input evaluated): a submission under the country schema with
raw countryCode "DE" derives `derivedCountry = "DE"` — the raw input value
itself — and the submit handler persists it verbatim both in the Person
record (`person.country`) and in the aggregate row (`row.country`),
contradicting the file's own PII policy ("DOB / countryCode are never
saved"): only the region coarsening is a derived field. -/
theorem submit_persists_raw_country :
    (deriveFields defaultSchemas defaultSchemas.kucoinCountry "" "DE" fun _ => none).dCountry
      = some "DE" ∧
    ((submit [] emptyAnalytics "0xaa"
        (deriveFields defaultSchemas defaultSchemas.kucoinCountry "" "DE"
          fun _ => none)).people.map fun p => p.country) = [some "DE"] ∧
    ((submit [] emptyAnalytics "0xaa"
        (deriveFields defaultSchemas defaultSchemas.kucoinCountry "" "DE"
          fun _ => none)).analytics.rows.map fun r => r.country) = ["DE"] := by
  refine ⟨by decide, by decide, by decide⟩

end DScope
